import Mathlib

/-!
Shallow embedding of the glitter renderer's CPU-side scene pipeline
(src/main.cpp) and of `Glitter::Util::ReadFile` (src/glitter/util/File.cpp).

Conventions of the embedding:
* C++ `float` values are modelled as exact rationals `ℚ`.  All claims treated
  here are about control flow, record layout/counting, exact comparisons
  (`== 0.0f`, `== 1.0f`, half-space sign tests) and order structure, none of
  which depend on IEEE rounding.
* `glm` matrices are column-major: `Mat4.c0 … c3` are the four columns, and
  the C++ expression `vp[i][j]` is column `i`, component `j`.
* The byte buffer of `LinearAllocator` is a `List α`; for the byte-level
  claims `α := ℕ` with `0` standing for a zero byte (`memset(..., 0, ...)`).
  For the render-pipeline model the buffer elements are symbolic `UboByte`s,
  since IEEE bit patterns of the copied floats are not modelled; sizes and
  offsets are exact.
* `std::sort` with a strict comparator is modelled by an insertion sort using
  the same comparator.  `std::sort`'s order on tie-breaking is unspecified;
  the insertion sort is one deterministic refinement of it, and no claim
  below depends on the order of equal keys.
-/

namespace Glitter

/-- Component-wise rational 3-vector, modelling `glm::vec3`. -/
structure Vec3 where
  x : ℚ
  y : ℚ
  z : ℚ
deriving DecidableEq

/-- Component-wise rational 4-vector, modelling `glm::vec4`. -/
structure Vec4 where
  x : ℚ
  y : ℚ
  z : ℚ
  w : ℚ
deriving DecidableEq

def Vec3.add (a b : Vec3) : Vec3 := ⟨a.x + b.x, a.y + b.y, a.z + b.z⟩

/-- Component-wise (Hadamard) product of two 3-vectors. -/
def Vec3.hadamard (a b : Vec3) : Vec3 := ⟨a.x * b.x, a.y * b.y, a.z * b.z⟩

def Vec4.add (a b : Vec4) : Vec4 := ⟨a.x + b.x, a.y + b.y, a.z + b.z, a.w + b.w⟩

def Vec4.smul (a : Vec4) (k : ℚ) : Vec4 := ⟨a.x * k, a.y * k, a.z * k, a.w * k⟩

/-- Column-major 4×4 matrix, modelling `glm::mat4`: `c0 … c3` are the columns,
so the C++ `m[i][j]` is here `(m.ci).j`-th component of column `i`. -/
structure Mat4 where
  c0 : Vec4
  c1 : Vec4
  c2 : Vec4
  c3 : Vec4
deriving DecidableEq

def Mat4.identity : Mat4 :=
  ⟨⟨1, 0, 0, 0⟩, ⟨0, 1, 0, 0⟩, ⟨0, 0, 1, 0⟩, ⟨0, 0, 0, 1⟩⟩

/-- Matrix · vector, glm conventions: `m * v = Σᵢ m[i] * v[i]`. -/
def Mat4.mulVec (m : Mat4) (v : Vec4) : Vec4 :=
  (((m.c0.smul v.x).add (m.c1.smul v.y)).add (m.c2.smul v.z)).add (m.c3.smul v.w)

/-- Matrix · matrix, glm conventions: column `i` of `a * b` is `a * b[i]`. -/
def Mat4.mul (a b : Mat4) : Mat4 :=
  ⟨a.mulVec b.c0, a.mulVec b.c1, a.mulVec b.c2, a.mulVec b.c3⟩

/-- `glm::scale(m, v)`: post-multiplies `m` by a scale matrix
(`Result[i] = m[i] * v[i]` for `i < 3`, `Result[3] = m[3]`). -/
def glmScale (m : Mat4) (v : Vec3) : Mat4 :=
  ⟨m.c0.smul v.x, m.c1.smul v.y, m.c2.smul v.z, m.c3⟩

/-- `glm::translate(m, v)`: post-multiplies `m` by a translation matrix
(`Result[3] = m[0]*v.x + m[1]*v.y + m[2]*v.z + m[3]`, other columns kept). -/
def glmTranslate (m : Mat4) (v : Vec3) : Mat4 :=
  ⟨m.c0, m.c1, m.c2, (((m.c0.smul v.x).add (m.c1.smul v.y)).add (m.c2.smul v.z)).add m.c3⟩

/-- `glm::vec3(m * glm::vec4(p, 1.0f))`: apply a 4×4 transform to a point. -/
def Mat4.mulPoint (m : Mat4) (p : Vec3) : Vec3 :=
  let v := m.mulVec ⟨p.x, p.y, p.z, 1⟩
  ⟨v.x, v.y, v.z⟩

/-- Frustum plane `a·x + b·y + c·z + d = 0` (main.cpp, local `struct Plane`). -/
structure Plane where
  a : ℚ
  b : ℚ
  c : ℚ
  d : ℚ
deriving DecidableEq

def Plane.add (p q : Plane) : Plane := ⟨p.a + q.a, p.b + q.b, p.c + q.c, p.d + q.d⟩

def Plane.sub (p q : Plane) : Plane := ⟨p.a - q.a, p.b - q.b, p.c - q.c, p.d - q.d⟩

/-- Row `x` of the view-projection matrix read as plane coefficients:
`(m[0][0], m[1][0], m[2][0], m[3][0])`. -/
def Mat4.rowX (m : Mat4) : Plane := ⟨m.c0.x, m.c1.x, m.c2.x, m.c3.x⟩

def Mat4.rowY (m : Mat4) : Plane := ⟨m.c0.y, m.c1.y, m.c2.y, m.c3.y⟩

def Mat4.rowZ (m : Mat4) : Plane := ⟨m.c0.z, m.c1.z, m.c2.z, m.c3.z⟩

def Mat4.rowW (m : Mat4) : Plane := ⟨m.c0.w, m.c1.w, m.c2.w, m.c3.w⟩

/-- The six frustum planes in the order the code stores them in
`frustumPlanes[0..5]`. -/
structure Frustum where
  left : Plane
  right : Plane
  bottom : Plane
  top : Plane
  near : Plane
  far : Plane
deriving DecidableEq

/-- Frustum-plane extraction from the VP matrix, exactly as written in
main.cpp lines 801-816 (`vp[i][3] ± vp[i][k]` per coefficient). -/
def extractFrustum (vp : Mat4) : Frustum where
  left := ⟨vp.c0.w + vp.c0.x, vp.c1.w + vp.c1.x, vp.c2.w + vp.c2.x, vp.c3.w + vp.c3.x⟩
  right := ⟨vp.c0.w - vp.c0.x, vp.c1.w - vp.c1.x, vp.c2.w - vp.c2.x, vp.c3.w - vp.c3.x⟩
  bottom := ⟨vp.c0.w + vp.c0.y, vp.c1.w + vp.c1.y, vp.c2.w + vp.c2.y, vp.c3.w + vp.c3.y⟩
  top := ⟨vp.c0.w - vp.c0.y, vp.c1.w - vp.c1.y, vp.c2.w - vp.c2.y, vp.c3.w - vp.c3.y⟩
  near := ⟨vp.c0.w + vp.c0.z, vp.c1.w + vp.c1.z, vp.c2.w + vp.c2.z, vp.c3.w + vp.c3.z⟩
  far := ⟨vp.c0.w - vp.c0.z, vp.c1.w - vp.c1.z, vp.c2.w - vp.c2.z, vp.c3.w - vp.c3.z⟩

/-- The six planes as a list, in the array order of `frustumPlanes`. -/
def Frustum.planes (f : Frustum) : List Plane :=
  [f.left, f.right, f.bottom, f.top, f.near, f.far]

/-- The `isInsideHalfspace` lambda of main.cpp line 836: strict sign test. -/
def isInsideHalfspace (p : Vec3) (pl : Plane) : Bool :=
  decide ((pl.a * p.x) + (pl.b * p.y) + (pl.c * p.z) + pl.d > 0)

/-- A corner is inside the frustum when it passes all six half-space tests
(the `insideLeft && … && insideFar` conjunction of main.cpp line 891). -/
def cornerInsideAll (f : Frustum) (c : Vec3) : Bool :=
  isInsideHalfspace c f.left && isInsideHalfspace c f.right &&
    isInsideHalfspace c f.bottom && isInsideHalfspace c f.top &&
    isInsideHalfspace c f.near && isInsideHalfspace c f.far

/-- Local-space axis-aligned bounding box (struct `AABB`). -/
structure AABB where
  m_localMin : Vec3
  m_localMax : Vec3
deriving DecidableEq

/-- The eight AABB corners in the exact order of the `aabbCorners` array
(main.cpp lines 849-858). -/
def aabbCorners (aabb : AABB) : List Vec3 :=
  [aabb.m_localMin,
   ⟨aabb.m_localMax.x, aabb.m_localMin.y, aabb.m_localMin.z⟩,
   ⟨aabb.m_localMin.x, aabb.m_localMax.y, aabb.m_localMin.z⟩,
   ⟨aabb.m_localMin.x, aabb.m_localMin.y, aabb.m_localMax.z⟩,
   ⟨aabb.m_localMax.x, aabb.m_localMin.y, aabb.m_localMax.z⟩,
   ⟨aabb.m_localMax.x, aabb.m_localMax.y, aabb.m_localMin.z⟩,
   ⟨aabb.m_localMin.x, aabb.m_localMax.y, aabb.m_localMax.z⟩,
   aabb.m_localMax]

/-- GPU handles of one mesh primitive (struct `Primitive`); the handles are
opaque GL names modelled as naturals. -/
structure Primitive where
  m_vbo : ℕ
  m_ebo : ℕ
  m_baseTexture : ℕ
  m_elementCount : ℕ
deriving DecidableEq

/-- Struct `Mesh`: primitives plus the local AABB. -/
structure Mesh where
  m_primitives : List Primitive
  m_aabb : AABB
deriving DecidableEq

/-- Struct `Node` (main.cpp lines 1180-1192). -/
structure Node where
  m_position : Vec3
  m_scale : Vec3
  m_meshID : ℕ
  m_uboOffset : ℕ
  m_texture : ℕ
  m_opacity : ℚ
  m_shouldAnimate : Bool
  m_culled : Bool
deriving DecidableEq

/-- The AABB transform of main.cpp lines 844-846: `glm::scale` on the
identity, then `glm::translate` (glm post-multiplies, so this builds the
matrix `S · T`). -/
def aabbTransform (n : Node) : Mat4 :=
  glmTranslate (glmScale Mat4.identity n.m_scale) n.m_position

/-- The model matrix of main.cpp lines 904-906 — the same composition as
`aabbTransform`. -/
def modelMatrix (n : Node) : Mat4 :=
  glmTranslate (glmScale Mat4.identity n.m_scale) n.m_position

/-- Fallback mesh for the (undefined-behavior) case of an out-of-range
`m_meshID`; all modelled scenes index in range. -/
def defaultMesh : Mesh := ⟨[], ⟨⟨0, 0, 0⟩, ⟨0, 0, 0⟩⟩⟩

/-- The node's eight AABB corners transformed to world space
(main.cpp lines 848-863). -/
def worldCorners (meshes : List Mesh) (n : Node) : List Vec3 :=
  (aabbCorners (meshes.getD n.m_meshID defaultMesh).m_aabb).map
    (fun c => (aabbTransform n).mulPoint c)

/-- The culling loop of main.cpp lines 882-899: `cullNode` starts `true` and
becomes `false` as soon as one corner is inside all six planes. -/
def cullNodeTest (f : Frustum) (corners : List Vec3) : Bool :=
  !(corners.any (fun c => cornerInsideAll f c))

/-- Class `LinearAllocator`: a growable buffer of elements of type `α`
(bytes, in the source) plus the device alignment.  `m_alignment` models the
value cached by `InitializeAlignment` — queried lazily once from the GL
device and constant afterwards, so it is a plain field here. -/
structure LinearAllocator (α : Type) where
  m_buffer : List α
  m_alignment : ℕ
deriving DecidableEq

def LinearAllocator.Size (a : LinearAllocator α) : ℕ := a.m_buffer.length

def LinearAllocator.Clear (a : LinearAllocator α) : LinearAllocator α :=
  ⟨[], a.m_alignment⟩

/-- `LinearAllocator::Push` (main.cpp lines 51-69).  `t` is the `sizeof(T)`
elements of the record being copied in, `z` is the element `memset` writes
as padding (the zero byte).  Returns the new allocator and the returned
offset (`offsetBeforePush`). -/
def LinearAllocator.Push (a : LinearAllocator α) (z : α) (t : List α) :
    LinearAllocator α × ℕ :=
  let sizeAfterT := a.m_buffer.length + t.length
  let paddingRequired :=
    if sizeAfterT % a.m_alignment = 0 then 0 else a.m_alignment - sizeAfterT % a.m_alignment
  (⟨a.m_buffer ++ t ++ List.replicate paddingRequired z, a.m_alignment⟩, a.m_buffer.length)

/-- A sequence of `Push` calls; returns the final allocator and, per push,
the returned offset paired with `Size()` right after that push. -/
def pushSeq (z : α) : LinearAllocator α → List (List α) → LinearAllocator α × List (ℕ × ℕ)
  | a, [] => (a, [])
  | a, t :: ts =>
    let step := a.Push z t
    let rest := pushSeq z step.1 ts
    (rest.1, (step.2, step.1.Size) :: rest.2)

/-- Struct `CommonData`: the shared per-frame record. -/
structure CommonData where
  m_view : Mat4
  m_projection : Mat4
  m_eyePos : Vec4
  m_lightPos : Vec4
  m_lightColor : Vec4
deriving DecidableEq

/-- One record handed to the allocator during a frame: the shared
`CommonData` or one node's `PerDrawData` (model matrix and opacity). -/
inductive RecordVal where
  | common (c : CommonData)
  | perDraw (m_model : Mat4) (m_opacity : ℚ)
deriving DecidableEq

/-- `sizeof(CommonData)`: two mat4 (64 each) and three vec4 (16 each). -/
def sizeofCommonData : ℕ := 176

/-- `sizeof(PerDrawData)`: one mat4 (64) plus one float (4). -/
def sizeofPerDrawData : ℕ := 68

def RecordVal.size : RecordVal → ℕ
  | .common _ => sizeofCommonData
  | .perDraw _ _ => sizeofPerDrawData

/-- One element of the UBO staging buffer: byte `i` of a copied record, or a
padding byte (value zero in the source; IEEE float bit patterns are not
modelled, so record bytes stay symbolic). -/
inductive UboByte where
  | data (r : RecordVal) (i : ℕ)
  | zeroPad
deriving DecidableEq

/-- The `sizeof(T)` bytes `memcpy` copies for a record, as symbolic bytes. -/
def RecordVal.bytes (r : RecordVal) : List UboByte :=
  (List.range r.size).map (fun i => UboByte.data r i)

/-- Squared Euclidean distance.  `glm::distance` returns the (float) square
root; since both sort comparators only compare distances and the square root
is monotone on nonnegative reals, comparing squared distances yields the
same order. -/
def dist2 (a b : Vec3) : ℚ :=
  (a.x - b.x) ^ 2 + (a.y - b.y) ^ 2 + (a.z - b.z) ^ 2

/-- Insert `x` into `l` before the first element `y` with `lt x y`. -/
def insertNodeBy (lt : Node → Node → Bool) (x : Node) : List Node → List Node
  | [] => [x]
  | y :: ys => if lt x y then x :: y :: ys else y :: insertNodeBy lt x ys

/-- Insertion sort with a strict comparator: a deterministic refinement of
`std::sort` (which leaves the order of comparator-equal elements
unspecified). -/
def sortNodesBy (lt : Node → Node → Bool) : List Node → List Node
  | [] => []
  | x :: xs => insertNodeBy lt x (sortNodesBy lt xs)

/-- The opaque-bucket sort of main.cpp lines 965-967: ascending distance
from the eye (front-to-back). -/
def sortFrontToBack (eye : Vec3) (l : List Node) : List Node :=
  sortNodesBy (fun a b => decide (dist2 eye a.m_position < dist2 eye b.m_position)) l

/-- The transparent-bucket sort of main.cpp lines 970-972: descending
distance from the eye (back-to-front). -/
def sortBackToFront (eye : Vec3) (l : List Node) : List Node :=
  sortNodesBy (fun a b => decide (dist2 eye b.m_position < dist2 eye a.m_position)) l

/-- The bucket-splitting loop of main.cpp lines 944-962, in list order:
skip culled nodes (only when culling is enabled), then classify by opacity
(`== 1.0f` opaque, `!= 0.0f` transparent, otherwise dropped). -/
def partitionNodes (fc : Bool) : List Node → List Node × List Node
  | [] => ([], [])
  | n :: ns =>
    let rest := partitionNodes fc ns
    if fc && n.m_culled then rest
    else if n.m_opacity = 1 then (n :: rest.1, rest.2)
    else if n.m_opacity ≠ 0 then (rest.1, n :: rest.2)
    else rest

/-- Result of the per-node packing loop. -/
structure PackResult where
  alloc : LinearAllocator UboByte
  outNodes : List Node
  recs : List RecordVal
  tested : List Bool
deriving DecidableEq

/-- The per-node loop of main.cpp lines 828-910: skip fully transparent
nodes entirely; otherwise (when culling is enabled) run the frustum test and
store the culled flag, then push the `PerDrawData` record and store the
returned offset on the node.  `tested` records, per node, whether the
frustum test was evaluated for it. -/
def packLoop (fc : Bool) (f : Frustum) (meshes : List Mesh) :
    List Node → LinearAllocator UboByte → PackResult
  | [], a => ⟨a, [], [], []⟩
  | n :: ns, a =>
    if n.m_opacity = 0 then
      let rest := packLoop fc f meshes ns a
      ⟨rest.alloc, n :: rest.outNodes, rest.recs, false :: rest.tested⟩
    else
      let n1 := if fc then { n with m_culled := cullNodeTest f (worldCorners meshes n) } else n
      let rec0 := RecordVal.perDraw (modelMatrix n) n.m_opacity
      let step := a.Push UboByte.zeroPad rec0.bytes
      let n2 := { n1 with m_uboOffset := step.2 }
      let rest := packLoop fc f meshes ns step.1
      ⟨rest.alloc, n2 :: rest.outNodes, rec0 :: rest.recs, fc :: rest.tested⟩

/-- Everything the `Render` pass produces that the claims talk about. -/
structure RenderResult where
  allocator : LinearAllocator UboByte
  sharedOffset : ℕ
  records : List RecordVal
  nodes : List Node
  tested : List Bool
  opaqueNodes : List Node
  transparentNodes : List Node
  drawn : List Node
deriving DecidableEq

/-- `GlitterApplication::Render` (main.cpp lines 773-1086), restricted to
the scene-processing pipeline the spec covers: clear the allocator, extract
the frustum from `projection * view`, push the shared record, run the
per-node packing loop, split the (updated) node list into buckets, sort
them, and draw opaque nodes then transparent nodes.  The camera inputs
(`view`, `projection`, `eyePos`) are parameters, as they come from
collaborators outside this core.  `records` lists the allocator's records
in push order; `drawn` lists the draw submissions in node order. -/
def Render (fc : Bool) (view projection : Mat4) (eyePos : Vec3)
    (meshes : List Mesh) (nodes : List Node) (a0 : LinearAllocator UboByte) :
    RenderResult :=
  let a1 := a0.Clear
  let vp := projection.mul view
  let f := extractFrustum vp
  let commonData : CommonData :=
    { m_view := view
      m_projection := projection
      m_eyePos := ⟨eyePos.x, eyePos.y, eyePos.z, 1⟩
      m_lightPos := ⟨1, 1/2, -(1/2), 1⟩
      m_lightColor := ⟨1, 1, 1, 1⟩ }
  let step0 := a1.Push UboByte.zeroPad (RecordVal.common commonData).bytes
  let packed := packLoop fc f meshes nodes step0.1
  let buckets := partitionNodes fc packed.outNodes
  let opaqueSorted := sortFrontToBack eyePos buckets.1
  let transparentSorted := sortBackToFront eyePos buckets.2
  { allocator := packed.alloc
    sharedOffset := step0.2
    records := RecordVal.common commonData :: packed.recs
    nodes := packed.outNodes
    tested := packed.tested
    opaqueNodes := opaqueSorted
    transparentNodes := transparentSorted
    drawn := opaqueSorted ++ transparentSorted }

end Glitter

namespace Glitter.Util

/-- Wraparound of the `size_t` expression `inputContents.length() - 1`
(File.cpp line 18): for length 0 the subtraction underflows to `2^64 - 1`. -/
def lastCharacterIdx (len : ℕ) : ℕ := (len + (2 ^ 64 - 1)) % 2 ^ 64

/-- `Glitter::Util::ReadFile` (File.cpp lines 9-27).  A file that cannot be
opened is `none`; otherwise the argument carries the stream's contents.  The
source reads `inputContents[lastCharacterIdx]`; when the contents are empty
that index is out of bounds (undefined behavior in C++), so the model keeps
the guarded access and returns the contents unchanged on the unreachable
branch. -/
def ReadFile : Option (List Char) → Option (List Char)
  | none => none
  | some inputContents =>
    let idx := lastCharacterIdx inputContents.length
    if h : idx < inputContents.length then
      if inputContents.get ⟨idx, h⟩ = '\n' then some (inputContents.take idx)
      else some inputContents
    else some inputContents

end Glitter.Util

namespace Glitter

/-! ### Concrete inputs used by individual claims -/

/-- Concrete node exhibiting the transform-order divergence for C2:
position (1,0,0), scale (2,2,2). -/
def c2FailingNode : Node :=
  { m_position := ⟨1, 0, 0⟩
    m_scale := ⟨2, 2, 2⟩
    m_meshID := 0
    m_uboOffset := 0
    m_texture := 0
    m_opacity := 1
    m_shouldAnimate := false
    m_culled := false }

/-- Concrete one-primitive mesh whose local AABB is the single point at the
origin. -/
def demoMesh : Mesh := ⟨[⟨1, 2, 3, 6⟩], ⟨⟨0, 0, 0⟩, ⟨0, 0, 0⟩⟩⟩

/-- Concrete empty allocator with the typical 256-byte UBO alignment. -/
def demoAlloc : LinearAllocator UboByte := ⟨[], 256⟩

/-- Concrete fully-opaque node placed outside the identity-VP frustum. -/
def c1CulledNode : Node := ⟨⟨10, 0, 0⟩, ⟨1, 1, 1⟩, 0, 0, 0, 1, false, false⟩

/-- Concrete node at the origin with the given opacity, inside the
identity-VP frustum. -/
def originNode (o : ℚ) : Node := ⟨⟨0, 0, 0⟩, ⟨1, 1, 1⟩, 0, 0, 0, o, false, false⟩

/-- Concrete node at distance `d` from the origin along the x-axis, used by
the sorting instance of C6. -/
def c6NodeAt (d : ℚ) : Node := ⟨⟨d, 0, 0⟩, ⟨1, 1, 1⟩, 0, 0, 0, 1, false, false⟩

/-! ### Allocator lemmas -/

lemma Push_snd (a : LinearAllocator α) (z : α) (t : List α) :
    (a.Push z t).2 = a.m_buffer.length := rfl

lemma Push_alignment (a : LinearAllocator α) (z : α) (t : List α) :
    (a.Push z t).1.m_alignment = a.m_alignment := rfl

lemma Push_buffer (a : LinearAllocator α) (z : α) (t : List α) :
    (a.Push z t).1.m_buffer =
      a.m_buffer ++ t ++
        List.replicate
          (if (a.m_buffer.length + t.length) % a.m_alignment = 0 then 0
           else a.m_alignment - (a.m_buffer.length + t.length) % a.m_alignment) z := rfl

lemma Push_size (a : LinearAllocator α) (z : α) (t : List α) :
    (a.Push z t).1.Size =
      a.Size + t.length +
        (if (a.Size + t.length) % a.m_alignment = 0 then 0
         else a.m_alignment - (a.Size + t.length) % a.m_alignment) := by
  simp [LinearAllocator.Size, Push_buffer]
  omega

/-- The branching padding computation of `Push` equals the closed formula
`(alignment - newLength % alignment) % alignment`. -/
lemma padding_formula (L al : ℕ) (h : 1 ≤ al) :
    (if L % al = 0 then 0 else al - L % al) = (al - L % al) % al := by
  by_cases h0 : L % al = 0
  · simp [h0]
  · have hlt : L % al < al := Nat.mod_lt _ h
    rw [if_neg h0]
    exact (Nat.mod_eq_of_lt (by omega)).symm

/-- Adding the padding makes the length a multiple of the alignment. -/
lemma aligned_after (L al : ℕ) (h : 1 ≤ al) :
    (L + (if L % al = 0 then 0 else al - L % al)) % al = 0 := by
  by_cases h0 : L % al = 0
  · simp [h0]
  · have hlt : L % al < al := Nat.mod_lt _ h
    have h2 : L % al + (al - L % al) = al := Nat.add_sub_cancel' (le_of_lt hlt)
    rw [if_neg h0]
    calc (L + (al - L % al)) % al
        = (al * (L / al) + (L % al + (al - L % al))) % al := by
          rw [← Nat.add_assoc, Nat.div_add_mod]
      _ = (al * (L / al) + al) % al := by rw [h2]
      _ = 0 := by rw [← Nat.mul_succ, Nat.mul_mod_right]

lemma Push_size_mod (a : LinearAllocator α) (z : α) (t : List α)
    (h : 1 ≤ a.m_alignment) : (a.Push z t).1.Size % a.m_alignment = 0 := by
  rw [Push_size]
  exact aligned_after (a.Size + t.length) a.m_alignment h

/-- Every offset returned along a push sequence, and every intermediate
size, is a multiple of the alignment, provided the starting size is. -/
lemma pushSeq_aligned (z : α) :
    ∀ (ts : List (List α)) (a : LinearAllocator α), 1 ≤ a.m_alignment →
      a.Size % a.m_alignment = 0 →
      ∀ p ∈ (pushSeq z a ts).2, p.1 % a.m_alignment = 0 ∧ p.2 % a.m_alignment = 0
  | [], a, _, _ => by simp [pushSeq]
  | t :: ts, a, h, h0 => by
    intro p hp
    rw [pushSeq] at hp
    simp only [List.mem_cons] at hp
    rcases hp with rfl | hp
    · exact ⟨h0, Push_size_mod a z t h⟩
    · have h' : 1 ≤ (a.Push z t).1.m_alignment := by rw [Push_alignment]; exact h
      have h0' : (a.Push z t).1.Size % (a.Push z t).1.m_alignment = 0 := by
        rw [Push_alignment]; exact Push_size_mod a z t h
      have := pushSeq_aligned z ts (a.Push z t).1 h' h0' p hp
      rwa [Push_alignment] at this

/-- A push sequence never modifies the bytes already in the buffer. -/
lemma pushSeq_preserves (z : α) :
    ∀ (ts : List (List α)) (a : LinearAllocator α),
      (pushSeq z a ts).1.m_buffer.take a.m_buffer.length = a.m_buffer
  | [], a => by simp [pushSeq]
  | t :: ts, a => by
    rw [pushSeq]
    have ih := pushSeq_preserves z ts (a.Push z t).1
    have hlen : a.m_buffer.length ≤ (a.Push z t).1.m_buffer.length := by
      rw [Push_buffer]; simp
    calc (pushSeq z (a.Push z t).1 ts).1.m_buffer.take a.m_buffer.length
        = ((pushSeq z (a.Push z t).1 ts).1.m_buffer.take
            (a.Push z t).1.m_buffer.length).take a.m_buffer.length := by
          rw [List.take_take, min_eq_left hlen]
      _ = ((a.Push z t).1.m_buffer).take a.m_buffer.length := by rw [ih]
      _ = a.m_buffer := by rw [Push_buffer, List.append_assoc, List.take_left]

/-- C4: with a cached alignment ≥ 1, `Size()` is `0` right after `Clear()`,
the first `Push` after a `Clear` returns offset `0`, every offset returned
along any push sequence is a multiple of the alignment, and `Size()` after
every push is a multiple of the alignment. -/
theorem c4_clear_and_alignment_invariants (a : LinearAllocator ℕ)
    (ts : List (List ℕ)) (h : 1 ≤ a.m_alignment) :
    (a.Clear).Size = 0 ∧
    (∀ t0 ts0, ts = t0 :: ts0 →
      ((pushSeq 0 a.Clear ts).2.map Prod.fst).head? = some 0) ∧
    (∀ p ∈ (pushSeq 0 a.Clear ts).2,
      p.1 % a.m_alignment = 0 ∧ p.2 % a.m_alignment = 0) := by
  refine ⟨rfl, ?_, ?_⟩
  · rintro t0 ts0 rfl
    rw [pushSeq]
    simp [Push_snd, LinearAllocator.Clear]
  · intro p hp
    have h' : 1 ≤ (a.Clear).m_alignment := h
    have h0 : (a.Clear).Size % (a.Clear).m_alignment = 0 := by
      simp [LinearAllocator.Clear, LinearAllocator.Size]
    exact pushSeq_aligned 0 ts a.Clear h' h0 p hp

/-- C4 witness: the invariants at a concrete allocator (alignment 4, stale
buffer `[9, 9, 9]`) and the concrete push sequence `[[1,2,3], [4,5,6,7,8]]`. -/
theorem c4_clear_and_alignment_invariants_witness :
    1 ≤ (LinearAllocator.mk [9, 9, 9] 4 : LinearAllocator ℕ).m_alignment ∧
    ((LinearAllocator.mk [9, 9, 9] 4 : LinearAllocator ℕ).Clear.Size = 0 ∧
     (∀ t0 ts0, [[1, 2, 3], [4, 5, 6, 7, 8]] = t0 :: ts0 →
       ((pushSeq 0 (LinearAllocator.mk [9, 9, 9] 4 : LinearAllocator ℕ).Clear
          [[1, 2, 3], [4, 5, 6, 7, 8]]).2.map Prod.fst).head? = some 0) ∧
     (∀ p ∈ (pushSeq 0 (LinearAllocator.mk [9, 9, 9] 4 : LinearAllocator ℕ).Clear
        [[1, 2, 3], [4, 5, 6, 7, 8]]).2,
       p.1 % (LinearAllocator.mk [9, 9, 9] 4 : LinearAllocator ℕ).m_alignment = 0 ∧
       p.2 % (LinearAllocator.mk [9, 9, 9] 4 : LinearAllocator ℕ).m_alignment = 0)) :=
  ⟨by decide,
   c4_clear_and_alignment_invariants (LinearAllocator.mk [9, 9, 9] 4)
     [[1, 2, 3], [4, 5, 6, 7, 8]] (by decide)⟩

/-- C5: with a cached alignment ≥ 1, `Push` returns the pre-push offset
(the buffer length before the call), appends the record followed by
zero-padding of exactly `(alignment - newLength % alignment) % alignment`
elements (`newLength` = old length + record size), and appends no padding
when `newLength` is already aligned. -/
theorem c5_push_prepush_offset_and_padding (a : LinearAllocator ℕ)
    (t : List ℕ) (h : 1 ≤ a.m_alignment) :
    (a.Push 0 t).2 = a.Size ∧
    (a.Push 0 t).1.m_buffer =
      a.m_buffer ++ t ++
        List.replicate
          ((a.m_alignment - (a.Size + t.length) % a.m_alignment) % a.m_alignment) 0 ∧
    (a.Push 0 t).1.Size =
      a.Size + t.length +
        (a.m_alignment - (a.Size + t.length) % a.m_alignment) % a.m_alignment ∧
    ((a.Size + t.length) % a.m_alignment = 0 →
      (a.Push 0 t).1.m_buffer = a.m_buffer ++ t) := by
  refine ⟨Push_snd a 0 t, ?_, ?_, ?_⟩
  · rw [Push_buffer, padding_formula _ _ h]; rfl
  · rw [Push_size, padding_formula _ _ h]
  · intro h0
    rw [Push_buffer]
    simp [LinearAllocator.Size] at h0
    simp [h0]

/-- C5 witness: pushing a 3-byte record into a 2-byte buffer with alignment
4 returns offset 2 and pads `5 → 8` with three zero bytes. -/
theorem c5_push_prepush_offset_and_padding_witness :
    1 ≤ (LinearAllocator.mk [7, 7] 4 : LinearAllocator ℕ).m_alignment ∧
    ((LinearAllocator.mk [7, 7] 4 : LinearAllocator ℕ).Push 0 [1, 2, 3]).2 =
      (LinearAllocator.mk [7, 7] 4 : LinearAllocator ℕ).Size ∧
    ((LinearAllocator.mk [7, 7] 4 : LinearAllocator ℕ).Push 0 [1, 2, 3]).1.m_buffer =
      [7, 7] ++ [1, 2, 3] ++ List.replicate ((4 - (2 + 3) % 4) % 4) 0 := by
  have h := c5_push_prepush_offset_and_padding (LinearAllocator.mk [7, 7] 4)
    [1, 2, 3] (by decide)
  exact ⟨by decide, h.1, h.2.1⟩

/-- C9: each `Push` of a nonempty record strictly grows the buffer — by at
least the record size — returns the old size as the offset, and leaves every
byte below that offset unchanged; consequently any later sequence of pushes
preserves the bytes already written. -/
theorem c9_push_grows_and_preserves_written_bytes (a : LinearAllocator ℕ)
    (t : List ℕ) (ht : 1 ≤ t.length) :
    a.Size < (a.Push 0 t).1.Size ∧
    a.Size + t.length ≤ (a.Push 0 t).1.Size ∧
    (a.Push 0 t).2 = a.Size ∧
    (a.Push 0 t).1.m_buffer.take a.Size = a.m_buffer ∧
    (∀ ts, (pushSeq 0 a ts).1.m_buffer.take a.Size = a.m_buffer) := by
  refine ⟨?_, ?_, Push_snd a 0 t, ?_, ?_⟩
  · rw [Push_size]; omega
  · rw [Push_size]; omega
  · rw [Push_buffer, LinearAllocator.Size, List.append_assoc, List.take_left]
  · intro ts
    exact pushSeq_preserves 0 ts a

/-- C9 witness: at a concrete allocator state, the growth, offset and
byte-preservation facts for the push of `[1, 2, 3]`. -/
theorem c9_push_grows_and_preserves_written_bytes_witness :
    1 ≤ ([1, 2, 3] : List ℕ).length ∧
    (LinearAllocator.mk [7, 7] 4 : LinearAllocator ℕ).Size <
      ((LinearAllocator.mk [7, 7] 4 : LinearAllocator ℕ).Push 0 [1, 2, 3]).1.Size ∧
    ((LinearAllocator.mk [7, 7] 4 : LinearAllocator ℕ).Push 0 [1, 2, 3]).1.m_buffer.take
      (LinearAllocator.mk [7, 7] 4 : LinearAllocator ℕ).Size = [7, 7] := by
  have h := c9_push_grows_and_preserves_written_bytes (LinearAllocator.mk [7, 7] 4)
    [1, 2, 3] (by decide)
  exact ⟨by decide, h.1, h.2.2.2.1⟩

/-! ### Packing-loop lemmas -/

/-- The per-draw records pushed by the packing loop are exactly one record
per node with nonzero opacity, in node-list order, regardless of the
allocator state and of the culled flags. -/
lemma packLoop_recs (fc : Bool) (f : Frustum) (meshes : List Mesh) :
    ∀ (ns : List Node) (a : LinearAllocator UboByte),
      (packLoop fc f meshes ns a).recs =
        (ns.filter (fun n => !decide (n.m_opacity = 0))).map
          (fun n => RecordVal.perDraw (modelMatrix n) n.m_opacity)
  | [], a => by simp [packLoop]
  | n :: ns, a => by
    by_cases h : n.m_opacity = 0
    · simp [packLoop, h, packLoop_recs fc f meshes ns a]
    · simp [packLoop, h, packLoop_recs fc f meshes ns]

/-- A node with opacity exactly 0 passes through the packing loop entirely
untouched and is never frustum-tested. -/
lemma packLoop_zero_opacity (fc : Bool) (f : Frustum) (meshes : List Mesh) :
    ∀ (ns : List Node) (a : LinearAllocator UboByte) (i : ℕ) (hi : i < ns.length),
      ns[i].m_opacity = 0 →
      (packLoop fc f meshes ns a).outNodes[i]? = some ns[i] ∧
      (packLoop fc f meshes ns a).tested[i]? = some false
  | [], _, i, hi => by simp at hi
  | n :: ns, a, 0, hi => by
    intro h0
    simp only [List.getElem_cons_zero] at h0
    simp [packLoop, h0]
  | n :: ns, a, i + 1, hi => by
    intro h0
    simp only [List.getElem_cons_succ] at h0
    have hi' : i < ns.length := by simpa using hi
    by_cases h : n.m_opacity = 0
    · have ih := packLoop_zero_opacity fc f meshes ns a i hi' h0
      simp [packLoop, h, ih.1, ih.2]
    · have ih := packLoop_zero_opacity fc f meshes ns
        (a.Push UboByte.zeroPad (RecordVal.perDraw (modelMatrix n) n.m_opacity).bytes).1
        i hi' h0
      simp [packLoop, h, ih.1, ih.2]

/-! ### Bucket lemmas -/

/-- A non-culled node with opacity exactly 1 lands in the opaque bucket. -/
lemma mem_partition_opaque (fc : Bool) :
    ∀ (ns : List Node) (n : Node), n ∈ ns → (fc = true → n.m_culled = false) →
      n.m_opacity = 1 → n ∈ (partitionNodes fc ns).1
  | [], n, hmem => by simp at hmem
  | m :: ns, n, hmem => by
    intro hnc hop
    rcases List.mem_cons.mp hmem with rfl | hmem'
    · have hskip : (fc && n.m_culled) = false := by
        cases fc
        · rfl
        · simp [hnc rfl]
      simp [partitionNodes, hskip, hop]
    · have ih := mem_partition_opaque fc ns n hmem' hnc hop
      by_cases hskip : (fc && m.m_culled) = true
      · simp [partitionNodes, hskip, ih]
      · rw [Bool.not_eq_true] at hskip
        by_cases h1 : m.m_opacity = 1
        · simp [partitionNodes, hskip, h1, ih]
        · by_cases h0 : m.m_opacity = 0
          · simp [partitionNodes, hskip, h1, h0, ih]
          · simp [partitionNodes, hskip, h1, h0, ih]

/-- A non-culled node with opacity strictly between 0 and 1 lands in the
transparent bucket. -/
lemma mem_partition_transparent (fc : Bool) :
    ∀ (ns : List Node) (n : Node), n ∈ ns → (fc = true → n.m_culled = false) →
      0 < n.m_opacity → n.m_opacity < 1 → n ∈ (partitionNodes fc ns).2
  | [], n, hmem => by simp at hmem
  | m :: ns, n, hmem => by
    intro hnc hlo hhi
    rcases List.mem_cons.mp hmem with rfl | hmem'
    · have hskip : (fc && n.m_culled) = false := by
        cases fc
        · rfl
        · simp [hnc rfl]
      have h1 : ¬n.m_opacity = 1 := by intro h; rw [h] at hhi; exact lt_irrefl 1 hhi
      have h0 : ¬n.m_opacity = 0 := by intro h; rw [h] at hlo; exact lt_irrefl 0 hlo
      simp [partitionNodes, hskip, h1, h0]
    · have ih := mem_partition_transparent fc ns n hmem' hnc hlo hhi
      by_cases hskip : (fc && m.m_culled) = true
      · simp [partitionNodes, hskip, ih]
      · rw [Bool.not_eq_true] at hskip
        by_cases h1 : m.m_opacity = 1
        · simp [partitionNodes, hskip, h1, ih]
        · by_cases h0 : m.m_opacity = 0
          · simp [partitionNodes, hskip, h1, h0, ih]
          · simp [partitionNodes, hskip, h1, h0, ih]

/-- Every member of the opaque bucket has opacity exactly 1. -/
lemma partition_opaque_opacity (fc : Bool) :
    ∀ (ns : List Node) (m : Node), m ∈ (partitionNodes fc ns).1 → m.m_opacity = 1
  | [], m => by simp [partitionNodes]
  | n :: ns, m => by
    intro hm
    by_cases hskip : (fc && n.m_culled) = true
    · rw [partitionNodes, if_pos hskip] at hm
      exact partition_opaque_opacity fc ns m hm
    · rw [Bool.not_eq_true] at hskip
      by_cases h1 : n.m_opacity = 1
      · rw [partitionNodes, if_neg (by simp [hskip]), if_pos h1] at hm
        rcases List.mem_cons.mp hm with rfl | hm'
        · exact h1
        · exact partition_opaque_opacity fc ns m hm'
      · by_cases h0 : n.m_opacity = 0
        · rw [partitionNodes, if_neg (by simp [hskip]), if_neg h1,
            if_neg (by simp [h0])] at hm
          exact partition_opaque_opacity fc ns m hm
        · rw [partitionNodes, if_neg (by simp [hskip]), if_neg h1,
            if_pos h0] at hm
          exact partition_opaque_opacity fc ns m hm

/-- Every member of the transparent bucket has opacity different from 0 and
from 1. -/
lemma partition_transparent_opacity (fc : Bool) :
    ∀ (ns : List Node) (m : Node), m ∈ (partitionNodes fc ns).2 →
      m.m_opacity ≠ 0 ∧ m.m_opacity ≠ 1
  | [], m => by simp [partitionNodes]
  | n :: ns, m => by
    intro hm
    by_cases hskip : (fc && n.m_culled) = true
    · rw [partitionNodes, if_pos hskip] at hm
      exact partition_transparent_opacity fc ns m hm
    · rw [Bool.not_eq_true] at hskip
      by_cases h1 : n.m_opacity = 1
      · rw [partitionNodes, if_neg (by simp [hskip]), if_pos h1] at hm
        exact partition_transparent_opacity fc ns m hm
      · by_cases h0 : n.m_opacity = 0
        · rw [partitionNodes, if_neg (by simp [hskip]), if_neg h1,
            if_neg (by simp [h0])] at hm
          exact partition_transparent_opacity fc ns m hm
        · rw [partitionNodes, if_neg (by simp [hskip]), if_neg h1,
            if_pos h0] at hm
          rcases List.mem_cons.mp hm with rfl | hm'
          · exact ⟨h0, h1⟩
          · exact partition_transparent_opacity fc ns m hm'

/-! ### Sorting lemmas -/

lemma mem_insertNodeBy (lt : Node → Node → Bool) (x : Node) :
    ∀ (l : List Node) (m : Node), m ∈ insertNodeBy lt x l ↔ m = x ∨ m ∈ l
  | [], m => by simp [insertNodeBy]
  | y :: ys, m => by
    rw [insertNodeBy]
    by_cases h : lt x y
    · simp [h]
    · simp [h, mem_insertNodeBy lt x ys]
      tauto

lemma mem_sortNodesBy (lt : Node → Node → Bool) :
    ∀ (l : List Node) (m : Node), m ∈ sortNodesBy lt l ↔ m ∈ l
  | [], m => by simp [sortNodesBy]
  | x :: xs, m => by
    rw [sortNodesBy, mem_insertNodeBy, mem_sortNodesBy lt xs]
    simp

lemma pairwise_insertNodeBy (R : Node → Node → Prop) (lt : Node → Node → Bool)
    (htrans : ∀ a b c, R a b → R b c → R a c)
    (hT : ∀ a b, lt a b = true → R a b)
    (hF : ∀ a b, lt a b = false → R b a) :
    ∀ (l : List Node) (x : Node), l.Pairwise R → (insertNodeBy lt x l).Pairwise R
  | [], x, _ => by simp [insertNodeBy]
  | y :: ys, x, hp => by
    rw [List.pairwise_cons] at hp
    rw [insertNodeBy]
    by_cases h : lt x y
    · rw [if_pos h, List.pairwise_cons]
      refine ⟨?_, List.pairwise_cons.mpr hp⟩
      intro z hz
      rcases List.mem_cons.mp hz with rfl | hz'
      · exact hT x z h
      · exact htrans x y z (hT x y h) (hp.1 z hz')
    · rw [if_neg h, List.pairwise_cons]
      refine ⟨?_, pairwise_insertNodeBy R lt htrans hT hF ys x hp.2⟩
      intro z hz
      rcases (mem_insertNodeBy lt x ys z).mp hz with rfl | hz'
      · exact hF z y (Bool.not_eq_true _ ▸ h)
      · exact hp.1 z hz'

lemma pairwise_sortNodesBy (R : Node → Node → Prop) (lt : Node → Node → Bool)
    (htrans : ∀ a b c, R a b → R b c → R a c)
    (hT : ∀ a b, lt a b = true → R a b)
    (hF : ∀ a b, lt a b = false → R b a) :
    ∀ l : List Node, (sortNodesBy lt l).Pairwise R
  | [] => by simp [sortNodesBy]
  | x :: xs => by
    rw [sortNodesBy]
    exact pairwise_insertNodeBy R lt htrans hT hF _ x
      (pairwise_sortNodesBy R lt htrans hT hF xs)

/-- The front-to-back sort produces ascending squared eye distance. -/
lemma sortFrontToBack_sorted (eye : Vec3) (l : List Node) :
    (sortFrontToBack eye l).Pairwise
      (fun a b => dist2 eye a.m_position ≤ dist2 eye b.m_position) := by
  apply pairwise_sortNodesBy
  · intro a b c hab hbc; exact le_trans hab hbc
  · intro a b hab; exact le_of_lt (of_decide_eq_true hab)
  · intro a b hab; exact le_of_not_lt (of_decide_eq_false hab)

/-- The back-to-front sort produces descending squared eye distance. -/
lemma sortBackToFront_sorted (eye : Vec3) (l : List Node) :
    (sortBackToFront eye l).Pairwise
      (fun a b => dist2 eye b.m_position ≤ dist2 eye a.m_position) := by
  apply pairwise_sortNodesBy
  · intro a b c hab hbc; exact le_trans hbc hab
  · intro a b hab; exact le_of_lt (of_decide_eq_true hab)
  · intro a b hab; exact le_of_not_lt (of_decide_eq_false hab)

/-- The record sequence a frame hands to the allocator: the shared record
first, then one per-draw record per node with nonzero opacity, in node-list
order (culled or not). -/
lemma Render_records (fc : Bool) (view projection : Mat4) (eyePos : Vec3)
    (meshes : List Mesh) (nodes : List Node) (a0 : LinearAllocator UboByte) :
    (Render fc view projection eyePos meshes nodes a0).records =
      RecordVal.common
        { m_view := view, m_projection := projection,
          m_eyePos := ⟨eyePos.x, eyePos.y, eyePos.z, 1⟩,
          m_lightPos := ⟨1, 1/2, -(1/2), 1⟩, m_lightColor := ⟨1, 1, 1, 1⟩ } ::
      (nodes.filter (fun n => !decide (n.m_opacity = 0))).map
        (fun n => RecordVal.perDraw (modelMatrix n) n.m_opacity) := by
  have h := packLoop_recs fc (extractFrustum (projection.mul view)) meshes nodes
    ((a0.Clear).Push UboByte.zeroPad (RecordVal.common
      { m_view := view, m_projection := projection,
        m_eyePos := ⟨eyePos.x, eyePos.y, eyePos.z, 1⟩,
        m_lightPos := ⟨1, 1/2, -(1/2), 1⟩, m_lightColor := ⟨1, 1, 1, 1⟩ }).bytes).1
  exact congrArg (List.cons (RecordVal.common
    { m_view := view, m_projection := projection,
      m_eyePos := ⟨eyePos.x, eyePos.y, eyePos.z, 1⟩,
      m_lightPos := ⟨1, 1/2, -(1/2), 1⟩, m_lightColor := ⟨1, 1, 1, 1⟩ })) h

/-! ### Claim theorems -/

/-- C3: a node is marked visible (culled flag `false`) if and only if at
least one of its 8 world-space AABB corners satisfies the strict half-space
test `a·x + b·y + c·z + d > 0` simultaneously for all 6 frustum planes, and
it is marked culled (`true`) exactly when no single corner does. -/
theorem c3_corner_existence_visibility (f : Frustum) (meshes : List Mesh) (n : Node) :
    (cullNodeTest f (worldCorners meshes n) = false ↔
      ∃ c ∈ worldCorners meshes n, ∀ pl ∈ f.planes,
        (pl.a * c.x) + (pl.b * c.y) + (pl.c * c.z) + pl.d > 0) ∧
    (cullNodeTest f (worldCorners meshes n) = true ↔
      ¬∃ c ∈ worldCorners meshes n, ∀ pl ∈ f.planes,
        (pl.a * c.x) + (pl.b * c.y) + (pl.c * c.z) + pl.d > 0) := by
  have key : ∀ c : Vec3, cornerInsideAll f c = true ↔
      ∀ pl ∈ f.planes, (pl.a * c.x) + (pl.b * c.y) + (pl.c * c.z) + pl.d > 0 := by
    intro c
    simp [cornerInsideAll, isInsideHalfspace, Frustum.planes, Bool.and_eq_true,
      decide_eq_true_eq]
    tauto
  constructor
  · rw [cullNodeTest, Bool.not_eq_false', List.any_eq_true]
    constructor
    · rintro ⟨c, hc, hin⟩; exact ⟨c, hc, (key c).mp hin⟩
    · rintro ⟨c, hc, hin⟩; exact ⟨c, hc, (key c).mpr hin⟩
  · rw [cullNodeTest, Bool.not_eq_true', List.any_eq_false]
    constructor
    · rintro hall ⟨c, hc, hin⟩
      exact hall c hc ((key c).mpr hin)
    · intro hne c hc hin
      exact hne ⟨c, hc, (key c).mp hin⟩

/-- C7: each extracted frustum plane is exactly the sum or difference of the
VP matrix's w-row with the x-, y- or z-row — `row_w + row_i` for the
negative-side (left/bottom/near) planes and `row_w - row_i` for the
positive-side (right/top/far) planes — with no normalization applied. -/
theorem c7_frustum_planes_from_rows (vp : Mat4) :
    (extractFrustum vp).left = vp.rowW.add vp.rowX ∧
    (extractFrustum vp).right = vp.rowW.sub vp.rowX ∧
    (extractFrustum vp).bottom = vp.rowW.add vp.rowY ∧
    (extractFrustum vp).top = vp.rowW.sub vp.rowY ∧
    (extractFrustum vp).near = vp.rowW.add vp.rowZ ∧
    (extractFrustum vp).far = vp.rowW.sub vp.rowZ :=
  ⟨rfl, rfl, rfl, rfl, rfl, rfl⟩

/-- C2 (code bug): because glm post-multiplies, calling `glm::scale` and
then `glm::translate` builds the matrix `S · T`, which applies the
translation first and then the scale: the transform the code applies to
mesh-local points — both for the AABB corners and for the model matrix —
is `world = scale ∘ (local + position)`, not the claimed (and intended,
per the code's own Scale-Rotate-Translate comment)
`world = position + scale ∘ local`.  At position (1,0,0), scale (2,2,2)
and local point (0,0,0) the code yields (2,0,0) while the claim requires
(1,0,0). -/
theorem c2_transform_applies_translation_before_scale :
    (∀ (n : Node) (p : Vec3),
      (aabbTransform n).mulPoint p = n.m_scale.hadamard (p.add n.m_position)) ∧
    (∀ n : Node, modelMatrix n = aabbTransform n) ∧
    (aabbTransform c2FailingNode).mulPoint ⟨0, 0, 0⟩ = ⟨2, 0, 0⟩ ∧
    c2FailingNode.m_position.add (c2FailingNode.m_scale.hadamard ⟨0, 0, 0⟩) = ⟨1, 0, 0⟩ ∧
    (⟨2, 0, 0⟩ : Vec3) ≠ ⟨1, 0, 0⟩ := by
  have hgen : ∀ (n : Node) (p : Vec3),
      (aabbTransform n).mulPoint p = n.m_scale.hadamard (p.add n.m_position) := by
    intro n p
    simp [aabbTransform, glmScale, glmTranslate, Mat4.identity, Mat4.mulPoint,
      Mat4.mulVec, Vec4.add, Vec4.smul, Vec3.hadamard, Vec3.add, Vec3.mk.injEq]
    refine ⟨by ring, by ring, by ring⟩
  refine ⟨hgen, fun _ => rfl, ?_, ?_, ?_⟩
  · rw [hgen]
    simp [c2FailingNode, Vec3.hadamard, Vec3.add, Vec3.mk.injEq]
  · simp [c2FailingNode, Vec3.hadamard, Vec3.add, Vec3.mk.injEq]
  · simp [Vec3.mk.injEq]

/-- C6: among non-culled nodes, a node with opacity exactly 1 lands in the
opaque bucket and one with opacity strictly between 0 and 1 in the
transparent bucket; the opaque bucket is sorted ascending and the
transparent bucket descending by distance from the eye; concretely, nodes
at distances [5, 1, 3] come out as [1, 3, 5] front-to-back and [5, 3, 1]
back-to-front. -/
theorem c6_opacity_buckets_and_distance_sorting (fc : Bool) (nodes : List Node)
    (n : Node) (eye : Vec3) (hmem : n ∈ nodes)
    (hnc : fc = true → n.m_culled = false) :
    (n.m_opacity = 1 → n ∈ (partitionNodes fc nodes).1) ∧
    (0 < n.m_opacity → n.m_opacity < 1 → n ∈ (partitionNodes fc nodes).2) ∧
    (sortFrontToBack eye (partitionNodes fc nodes).1).Pairwise
      (fun a b => dist2 eye a.m_position ≤ dist2 eye b.m_position) ∧
    (sortBackToFront eye (partitionNodes fc nodes).2).Pairwise
      (fun a b => dist2 eye b.m_position ≤ dist2 eye a.m_position) ∧
    sortFrontToBack ⟨0, 0, 0⟩ [c6NodeAt 5, c6NodeAt 1, c6NodeAt 3] =
      [c6NodeAt 1, c6NodeAt 3, c6NodeAt 5] ∧
    sortBackToFront ⟨0, 0, 0⟩ [c6NodeAt 5, c6NodeAt 1, c6NodeAt 3] =
      [c6NodeAt 5, c6NodeAt 3, c6NodeAt 1] := by
  refine ⟨fun h1 => mem_partition_opaque fc nodes n hmem hnc h1,
    fun hlo hhi => mem_partition_transparent fc nodes n hmem hnc hlo hhi,
    sortFrontToBack_sorted eye _, sortBackToFront_sorted eye _, ?_, ?_⟩
  · norm_num [sortFrontToBack, sortNodesBy, insertNodeBy, dist2, c6NodeAt]
  · norm_num [sortBackToFront, sortNodesBy, insertNodeBy, dist2, c6NodeAt]

/-- C6 witness: the bucket and sorting facts at a concrete scene — one
non-culled node of opacity 1 with culling disabled. -/
theorem c6_opacity_buckets_and_distance_sorting_witness :
    c6NodeAt 7 ∈ [c6NodeAt 7] ∧
    ((c6NodeAt 7).m_opacity = 1 →
      c6NodeAt 7 ∈ (partitionNodes false [c6NodeAt 7]).1) ∧
    sortFrontToBack ⟨0, 0, 0⟩ [c6NodeAt 5, c6NodeAt 1, c6NodeAt 3] =
      [c6NodeAt 1, c6NodeAt 3, c6NodeAt 5] := by
  have h := c6_opacity_buckets_and_distance_sorting false [c6NodeAt 7]
    (c6NodeAt 7) ⟨0, 0, 0⟩ (by simp) (by intro h; cases h)
  exact ⟨by simp, h.1, h.2.2.2.2.1⟩

/-- C8: a node with opacity exactly 0 gets no per-draw record (the record
list is one shared record plus one per nonzero-opacity node, and every
per-draw record carries a nonzero opacity), is never frustum-tested, passes
through the frame with its culled flag and stored buffer offset — its whole
state — unchanged, and appears in neither draw bucket. -/
theorem c8_zero_opacity_node_untouched (fc : Bool) (view projection : Mat4)
    (eyePos : Vec3) (meshes : List Mesh) (nodes : List Node)
    (a0 : LinearAllocator UboByte) (i : ℕ) (hi : i < nodes.length)
    (h0 : nodes[i].m_opacity = 0) :
    (Render fc view projection eyePos meshes nodes a0).nodes[i]? = some nodes[i] ∧
    (Render fc view projection eyePos meshes nodes a0).tested[i]? = some false ∧
    (Render fc view projection eyePos meshes nodes a0).records.length =
      1 + (nodes.filter (fun m => !decide (m.m_opacity = 0))).length ∧
    (∀ r ∈ (Render fc view projection eyePos meshes nodes a0).records,
      ∀ m o, r = RecordVal.perDraw m o → o ≠ 0) ∧
    (∀ m ∈ (Render fc view projection eyePos meshes nodes a0).opaqueNodes,
      m.m_opacity ≠ 0) ∧
    (∀ m ∈ (Render fc view projection eyePos meshes nodes a0).transparentNodes,
      m.m_opacity ≠ 0) := by
  refine ⟨(packLoop_zero_opacity fc _ meshes nodes _ i hi h0).1,
    (packLoop_zero_opacity fc _ meshes nodes _ i hi h0).2, ?_, ?_, ?_, ?_⟩
  · rw [Render_records]
    simp [Nat.add_comm]
  · rw [Render_records]
    intro r hr m o hro
    rcases List.mem_cons.mp hr with rfl | hr'
    · exact absurd hro (by simp)
    · obtain ⟨nn, hmem, hnn⟩ := List.mem_map.mp hr'
      have hne : ¬nn.m_opacity = 0 := by
        have := List.of_mem_filter hmem
        simpa using this
      rw [← hnn] at hro
      have : o = nn.m_opacity := (RecordVal.perDraw.injEq _ _ _ _).mp hro.symm |>.2
      rw [this]
      exact hne
  · intro m hm
    have hm' := (mem_sortNodesBy _ _ m).mp hm
    have h1 := partition_opaque_opacity fc _ m hm'
    rw [h1]
    exact one_ne_zero
  · intro m hm
    have hm' := (mem_sortNodesBy _ _ m).mp hm
    exact (partition_transparent_opacity fc _ m hm').1

/-- C8 witness: the untouched-node facts at a concrete one-node scene with
a zero-opacity node and culling enabled. -/
theorem c8_zero_opacity_node_untouched_witness :
    0 < ([originNode 0] : List Node).length ∧
    ([originNode 0] : List Node)[0].m_opacity = 0 ∧
    (Render true Mat4.identity Mat4.identity ⟨0, 0, 0⟩ [demoMesh]
      [originNode 0] demoAlloc).nodes[0]? = some ([originNode 0] : List Node)[0] ∧
    (Render true Mat4.identity Mat4.identity ⟨0, 0, 0⟩ [demoMesh]
      [originNode 0] demoAlloc).tested[0]? = some false := by
  have h := c8_zero_opacity_node_untouched true Mat4.identity Mat4.identity
    ⟨0, 0, 0⟩ [demoMesh] [originNode 0] demoAlloc 0 (by simp) (by simp [originNode])
  exact ⟨by simp, by simp [originNode], h.1, h.2.1⟩

/-- C1 counterexample: with frustum culling enabled and a single fully
opaque node outside the identity-VP frustum, the render pass marks the node
culled and still pushes its per-draw record — the allocator receives 2
records (shared plus per-draw), where the claim predicts only the shared
one for a culled node. -/
theorem c1_counterexample_culled_node_record_still_pushed :
    (Render true Mat4.identity Mat4.identity ⟨0, 0, 0⟩ [demoMesh] [c1CulledNode]
      demoAlloc).nodes.map Node.m_culled = [true] ∧
    (Render true Mat4.identity Mat4.identity ⟨0, 0, 0⟩ [demoMesh] [c1CulledNode]
      demoAlloc).records.length = 2 := by
  constructor
  · norm_num [Render, packLoop, cullNodeTest, worldCorners, aabbCorners,
      cornerInsideAll, isInsideHalfspace, extractFrustum, Mat4.mul, Mat4.mulVec,
      Mat4.identity, Vec4.add, Vec4.smul, aabbTransform, glmScale, glmTranslate,
      Mat4.mulPoint, demoMesh, c1CulledNode, demoAlloc, defaultMesh]
  · rw [Render_records]
    norm_num [c1CulledNode]

/-- C1 (amended): per frame the allocator receives exactly one shared
record followed by one per-draw record per node with nonzero opacity — in
node-list order and regardless of the culled flag; a node with opacity
exactly 0 contributes no record; and for 3 nodes with opacities
[1, 1/2, 0] all inside the frustum the allocator receives exactly 2
per-draw records (3 records in total) and the opaque node is drawn before
the transparent one. -/
theorem c1_amended_one_record_per_nonzero_opacity_node :
    (∀ (fc : Bool) (view projection : Mat4) (eyePos : Vec3) (meshes : List Mesh)
      (nodes : List Node) (a0 : LinearAllocator UboByte),
      (Render fc view projection eyePos meshes nodes a0).records =
        RecordVal.common
          { m_view := view, m_projection := projection,
            m_eyePos := ⟨eyePos.x, eyePos.y, eyePos.z, 1⟩,
            m_lightPos := ⟨1, 1/2, -(1/2), 1⟩, m_lightColor := ⟨1, 1, 1, 1⟩ } ::
          (nodes.filter (fun n => !decide (n.m_opacity = 0))).map
            (fun n => RecordVal.perDraw (modelMatrix n) n.m_opacity)) ∧
    (Render true Mat4.identity Mat4.identity ⟨0, 0, 0⟩ [demoMesh]
      [originNode 1, originNode (1/2), originNode 0] demoAlloc).records.length = 3 ∧
    (Render true Mat4.identity Mat4.identity ⟨0, 0, 0⟩ [demoMesh]
      [originNode 1, originNode (1/2), originNode 0] demoAlloc).drawn.map
        Node.m_opacity = [1, 1/2] := by
  refine ⟨Render_records, ?_, ?_⟩
  · rw [Render_records]
    norm_num [originNode]
  · norm_num [Render, packLoop, partitionNodes, sortFrontToBack, sortBackToFront,
      sortNodesBy, insertNodeBy, dist2, cullNodeTest, worldCorners, aabbCorners,
      cornerInsideAll, isInsideHalfspace, extractFrustum, Mat4.mul, Mat4.mulVec,
      Mat4.identity, Vec4.add, Vec4.smul, aabbTransform, glmScale, glmTranslate,
      Mat4.mulPoint, demoMesh, originNode, demoAlloc, defaultMesh]

end Glitter

namespace Glitter.Util

/-- C10: `ReadFile` returns `none` when the file cannot be opened; for any
openable file with non-empty contents it returns the contents with exactly
the last character removed when that character is a newline and the contents
unchanged otherwise; and the `size_t` index `length - 1` used for that test
is in bounds precisely when the contents are non-empty (it wraps around to
`2^64 - 1` for empty contents). -/
theorem c10_readfile_trailing_newline_and_bounds :
    ReadFile none = none ∧
    (∀ s : List Char, s ≠ [] → s.length < 2 ^ 64 →
      ReadFile (some s) = some (if s.getLastD ' ' = '\n' then s.dropLast else s)) ∧
    (∀ len : ℕ, len < 2 ^ 64 → (lastCharacterIdx len < len ↔ len ≠ 0)) := by
  have hidx : ∀ len : ℕ, len < 2 ^ 64 → len ≠ 0 → lastCharacterIdx len = len - 1 := by
    intro len hlt hne
    have h1 : len + (2 ^ 64 - 1) = (len - 1) + 1 * 2 ^ 64 := by omega
    rw [lastCharacterIdx, h1, Nat.add_mul_mod_self_right, Nat.mod_eq_of_lt (by omega)]
  refine ⟨rfl, ?_, ?_⟩
  · intro s hne hlt
    have hlen : s.length ≠ 0 := fun h => hne (List.length_eq_zero.mp h)
    have heq := hidx s.length hlt hlen
    have hb : lastCharacterIdx s.length < s.length := by omega
    rw [ReadFile]
    rw [dif_pos hb]
    have hget : s.get ⟨lastCharacterIdx s.length, hb⟩ = s.getLastD ' ' := by
      rw [List.getLastD_eq_getLast? , List.getLast?_eq_getElem? ]
      rw [List.getElem?_eq_getElem (by omega)]
      simp [heq]
    have htake : s.take (lastCharacterIdx s.length) = s.dropLast := by
      rw [heq, List.dropLast_eq_take]
    by_cases hnl : s.getLastD ' ' = '\n'
    · rw [if_pos (hget.trans hnl), if_pos hnl, htake]
    · rw [if_neg (fun h => hnl (hget.symm.trans h)), if_neg hnl]
  · intro len hlt
    constructor
    · intro h hz
      rw [hz] at h
      simp [lastCharacterIdx] at h
    · intro hne
      rw [hidx len hlt hne]
      omega

/-- C10 witness: the contents `"a\n"` are non-empty and lose exactly the
trailing newline; the index bound holds at length 2 and fails at length 0. -/
theorem c10_readfile_trailing_newline_and_bounds_witness :
    (['a', '\n'] : List Char) ≠ [] ∧
    ReadFile (some ['a', '\n']) = some ['a'] ∧
    (lastCharacterIdx 2 < 2 ↔ (2 : ℕ) ≠ 0) := by
  have h := c10_readfile_trailing_newline_and_bounds
  refine ⟨by decide, ?_, h.2.2 2 (by norm_num)⟩
  have h2 := h.2.1 ['a', '\n'] (by decide) (by norm_num)
  simpa using h2

end Glitter.Util

